import Mathlib

/-!
Verification of the watermark detection core of the `sunnengsen/mmo` repository.

The Python sources `src/logo_detector.py` and `src/video_operations.py` are
shallowly embedded below.  Conventions used throughout:

* Pixel coordinates and sizes are natural numbers.  Every Python subtraction
  that could go negative in the source is immediately clamped by
  `max(0, ...)` there; truncated `Nat` subtraction composed with the same
  clamp yields the same value, so `Nat` is a faithful carrier.
* Python `float` arithmetic on confidences, scores, averages and variances is
  modelled with exact rationals (`ℚ`).  The constants involved (0.5, 0.7,
  0.8, 2.0, ...) are written as the corresponding rationals.
* Python's stable `list.sort(key=..., reverse=...)` is modelled with
  `List.insertionSort`, which is the stable sort for the corresponding
  relation; a stable sort's output is uniquely determined by the key and the
  input order, so the two agree.
* External capabilities (pytesseract OCR, OpenCV connected components, the
  regex-based text classifier `_is_watermark_text`) are modelled as oracle
  parameters bundled in the `Oracles` structure: the functions under
  verification only inspect their results.
-/

namespace MMO

/-! ### Python string primitives -/

/-- Whitespace stripped by Python's `str.strip()` (ASCII part). -/
def pySpace (c : Char) : Bool :=
  c = ' ' || c = '\t' || c = '\n' || c = '\r' || c = '\x0b' || c = '\x0c'

/-- Python `str.strip()`. -/
def pyStrip (s : String) : String :=
  ⟨((s.data.dropWhile pySpace).reverse.dropWhile pySpace).reverse⟩

/-- Python `str.lower()` (ASCII case folding; every literal compared in the
source is unaffected by the difference on exotic code points). -/
def pyLower (s : String) : String :=
  ⟨s.data.map Char.toLower⟩

/-- Predicate for `n` being a prefix of `h` (helper for the substring test). -/
def startsWithChars : List Char → List Char → Bool
  | [], _ => true
  | _ :: _, [] => false
  | a :: as, b :: bs => a = b && startsWithChars as bs

/-- Python's substring test `needle in hay` on character lists. -/
def containsSub (needle : List Char) : List Char → Bool
  | [] => startsWithChars needle []
  | b :: bs => startsWithChars needle (b :: bs) || containsSub needle bs

/-- Python's `needle in hay` on strings. -/
def subStr (needle hay : String) : Bool :=
  containsSub needle.data hay.data

/-! ### Detections

`Det` models the per-detection dictionaries of `logo_detector.py`.  Keys that
a given dictionary does not carry are read in the source with
`dict.get(key, default)`; the structure default mirrors that default. -/

structure Det where
  x : Nat
  y : Nat
  width : Nat
  height : Nat
  confidence : ℚ := 0
  typ : String := ""
  text : String := ""
  is_watermark : Bool := false
  corner : String := ""
  timestamp : ℚ := 0
  frame_index : Nat := 0
  watermark_score : ℚ := 0
  merged_count : Nat := 1
deriving DecidableEq, Repr, Inhabited

/-- Minimum of `g` over a detection list (`min(... for d in detections)`);
`0` on the empty list, which no caller reaches. -/
def dMin (g : Det → Nat) : List Det → Nat
  | [] => 0
  | d :: r => r.foldl (fun a e => min a (g e)) (g d)

/-- Maximum of `g` over a detection list. -/
def dMax (g : Det → Nat) : List Det → Nat
  | [] => 0
  | d :: r => r.foldl (fun a e => max a (g e)) (g d)

/-- Maximum confidence over a detection list
(`max(d.get('confidence', 0) for d in detections)`). -/
def qMaxConf : List Det → ℚ
  | [] => 0
  | d :: r => r.foldl (fun a e => max a e.confidence) d.confidence

/-! ### Detection Merger (`logo_detector.py` lines 724-915) -/

/-- The single-detection padding used both by `merge_overlapping_detections`
and by the `len(detections) == 1` branch of `_merge_multiple_detections`:
`padding = min(8, width // 8, height // 4)`, subtracted from `x`/`y` with a
`max(0, ...)` clamp and added twice to the size. -/
def padSingle (d : Det) : Det :=
  let padding := min 8 (min (d.width / 8) (d.height / 4))
  { d with
    x := max 0 (d.x - padding)
    y := max 0 (d.y - padding)
    width := d.width + 2 * padding
    height := d.height + 2 * padding }

/-- Source `min_x` of `_merge_multiple_detections`. -/
def clusterMinX (ds : List Det) : Nat := dMin (fun d => d.x) ds

/-- Source `min_y` of `_merge_multiple_detections`. -/
def clusterMinY (ds : List Det) : Nat := dMin (fun d => d.y) ds

/-- Source `max_x` of `_merge_multiple_detections`. -/
def clusterMaxX (ds : List Det) : Nat := dMax (fun d => d.x + d.width) ds

/-- Source `max_y` of `_merge_multiple_detections`. -/
def clusterMaxY (ds : List Det) : Nat := dMax (fun d => d.y + d.height) ds

/-- Source `padding_x = min(15, max(5, span_x // 20))`. -/
def clusterPadX (ds : List Det) : Nat :=
  min 15 (max 5 ((clusterMaxX ds - clusterMinX ds) / 20))

/-- Source `padding_y = min(10, max(3, span_y // 20))`. -/
def clusterPadY (ds : List Det) : Nat :=
  min 10 (max 3 ((clusterMaxY ds - clusterMinY ds) / 20))

/-- Source `final_x = max(0, min_x - padding_x)` — the unclamped (padded) left edge. -/
def paddedX (ds : List Det) : Nat := max 0 (clusterMinX ds - clusterPadX ds)

/-- Source `final_y = max(0, min_y - padding_y)`. -/
def paddedY (ds : List Det) : Nat := max 0 (clusterMinY ds - clusterPadY ds)

/-- Source `final_width = span_x + 2 * padding_x` — the unclamped (padded) width. -/
def paddedW (ds : List Det) : Nat :=
  (clusterMaxX ds - clusterMinX ds) + 2 * clusterPadX ds

/-- Source `final_height = span_y + 2 * padding_y`. -/
def paddedH (ds : List Det) : Nat :=
  (clusterMaxY ds - clusterMinY ds) + 2 * clusterPadY ds

/-- The `combined_text` computation of `_merge_multiple_detections`:
non-blank texts, stripped, deduplicated keeping first occurrences, first
three joined with spaces. -/
def combinedText (ds : List Det) : String :=
  let texts := (ds.map (fun d => d.text)).filter (fun t => pyStrip t ≠ "")
  let unique := texts.foldl
    (fun acc t =>
      let c := pyStrip t
      if c ≠ "" ∧ ¬ acc.contains c then acc ++ [c] else acc) []
  " ".intercalate (unique.take 3)

/-- The multi-detection branch of `_merge_multiple_detections`: bounding box
of all constituents, span-proportional padding, then the hard 300×100 size
clamp that re-centers an oversized box
(`center_x = final_x + final_width // 2; final_x = max(0, center_x - max_width // 2)`). -/
def mergeCluster (ds : List Det) : Det :=
  let ux := paddedX ds
  let uy := paddedY ds
  let uw := paddedW ds
  let uh := paddedH ds
  let fx := if 300 < uw then max 0 (ux + uw / 2 - 150) else ux
  let fw := if 300 < uw then 300 else uw
  let fy := if 100 < uh then max 0 (uy + uh / 2 - 50) else uy
  let fh := if 100 < uh then 100 else uh
  { x := fx, y := fy, width := fw, height := fh,
    confidence := qMaxConf ds,
    typ := "merged_watermark",
    text := combinedText ds,
    is_watermark := ds.any (fun d => d.is_watermark),
    corner := "merged_" ++ toString ds.length ++ "_areas",
    merged_count := ds.length }

/-- Source `_merge_multiple_detections`.  The source returns an empty dictionary for
an empty input, which no caller reaches; that case is `none` here. -/
def mergeMultipleDetections : List Det → Option Det
  | [] => none
  | [d] => some (padSingle d)
  | ds => some (mergeCluster ds)

/-- Source `_calculate_overlap`: intersection over union of two boxes. -/
def calculateOverlap (b1 b2 : Det) : ℚ :=
  let left := max b1.x b2.x
  let top := max b1.y b2.y
  let right := min (b1.x + b1.width) (b2.x + b2.width)
  let bottom := min (b1.y + b1.height) (b2.y + b2.height)
  if right ≤ left ∨ bottom ≤ top then 0
  else
    let intersection := (right - left) * (bottom - top)
    let union := b1.width * b1.height + b2.width * b2.height - intersection
    if 0 < union then (intersection : ℚ) / (union : ℚ) else 0

/-- Squared center distance of `_calculate_distance`.  The source compares
`sqrt(distanceSq) < 30`; the callers below compare `distanceSq < 900`, which
is equivalent over the reals. -/
def distanceSq (b1 b2 : Det) : ℚ :=
  ((b1.x : ℚ) + b1.width / 2 - ((b2.x : ℚ) + b2.width / 2)) ^ 2 +
  ((b1.y : ℚ) + b1.height / 2 - ((b2.y : ℚ) + b2.height / 2)) ^ 2

/-- The merging criterion of `merge_overlapping_detections`: significant
overlap, or two nearby text detections on a similar horizontal line. -/
def shouldMergeWith (threshold : ℚ) (seed d : Det) : Bool :=
  decide (threshold < calculateOverlap seed d) ||
  (decide (distanceSq seed d < 900) &&
   seed.typ.startsWith "text" && d.typ.startsWith "text" &&
   decide (((seed.y : ℤ) - (d.y : ℤ)).natAbs < 20))

/-- The greedy clustering loop of `merge_overlapping_detections`: each
not-yet-used seed absorbs every later unused detection matching
`shouldMergeWith`.  The loop consumes at least one detection per iteration,
so the explicit fuel argument, initialised to the list length by
`mergeOverlappingDetections`, makes the termination measure structural. -/
def mergeLoopFuel (threshold : ℚ) : Nat → List Det → List Det
  | 0, _ => []
  | _, [] => []
  | fuel + 1, d :: rest =>
    let cluster := rest.filter (fun e => shouldMergeWith threshold d e)
    let remaining := rest.filter (fun e => ¬ shouldMergeWith threshold d e)
    let m := if cluster.isEmpty then padSingle d else mergeCluster (d :: cluster)
    m :: mergeLoopFuel threshold fuel remaining

/-- The relation of Python's `detections.sort(key=lambda x: x['confidence'],
reverse=True)`. -/
def confDesc (a b : Det) : Prop := b.confidence ≤ a.confidence

instance : DecidableRel confDesc :=
  fun a b => inferInstanceAs (Decidable (b.confidence ≤ a.confidence))

instance : IsTotal Det confDesc := ⟨fun a b => le_total b.confidence a.confidence⟩

instance : IsTrans Det confDesc := ⟨fun _ _ _ h1 h2 => le_trans h2 h1⟩

/-- Source `merge_overlapping_detections`. -/
def mergeOverlappingDetections (detections : List Det) (threshold : ℚ := 3 / 10) :
    List Det :=
  if detections.isEmpty then []
  else
    let sorted := List.insertionSort confDesc detections
    mergeLoopFuel threshold sorted.length sorted

/-! ### Fuzzy text similarity (`_texts_are_similar`, lines 1077-1165) -/

/-- Source `moving_parts` literal set. -/
def movingParts : List String :=
  ["moving", "mov", "ving", "oving", "ov", "vi", "ng", "g", "v"]

/-- Source `watermark_parts` literal set. -/
def watermarkParts : List String :=
  ["watermark", "water", "mark", "ater", "ter", "rmark", "emark", "ark", "ate"]

/-- Source `watermark_fragments` literal set (the Python set literal contains some
repeated entries; repetitions do not affect membership tests). -/
def watermarkFragments : List String :=
  ["moving", "mov", "ving", "oving", "ov", "vi", "ng", "in", "g",
   "watermark", "water", "mark", "ater", "ter", "wat", "ate", "ma", "ar", "rk",
   "emark", "rmark", "wate", "terma", "ermar", "rmار", "g water", "nic water",
   "logo", "brand", "copyright", "©", "®", "™", "copy", "right", "ight",
   "watermar", "waterm", "aterm", "rmar", "waterkaar", "tepkaarko", "kaar",
   "tepka", "kaarko"]

/-- Normalisation `text.replace(' ', '').replace('-', '').replace('_', '')`. -/
def normChars (s : String) : List Char :=
  s.data.filter (fun c => ¬ (c = ' ' ∨ c = '-' ∨ c = '_'))

/-- The shorter/longer containment test: `shorter in longer` after ordering
the two processed texts by length. -/
def containedCheck (t1 t2 : String) : Bool :=
  let sl := if t1.length < t2.length then (t1, t2) else (t2, t1)
  decide (1 ≤ sl.1.length) && containsSub sl.1.data sl.2.data

/-- The cross moving/watermark phrase test: one text carries a `moving`
fragment, the other a `watermark` fragment. -/
def crossPhraseCheck (n1 n2 : List Char) : Bool :=
  let t1m := movingParts.any (fun p => containsSub p.data n1)
  let t1w := watermarkParts.any (fun p => containsSub p.data n1)
  let t2m := movingParts.any (fun p => containsSub p.data n2)
  let t2w := watermarkParts.any (fun p => containsSub p.data n2)
  (t1m && t2w) || (t1w && t2m)

/-- Shared `watermark_fragments` membership
(`text1_fragments & text2_fragments` non-empty). -/
def sharedFragmentCheck (n1 n2 : List Char) : Bool :=
  watermarkFragments.any (fun f => containsSub f.data n1 && containsSub f.data n2)

/-- Both normalised texts are substrings of `'movingwatermark'` or
`'moving watermark'` (with the `len >= 2` guards). -/
def targetSubstringCheck (t1 t2 : String) (n1 n2 : List Char) : Bool :=
  decide (2 ≤ t1.length) && decide (2 ≤ t2.length) &&
  (containsSub n1 "movingwatermark".data || containsSub n1 "moving watermark".data) &&
  (containsSub n2 "movingwatermark".data || containsSub n2 "moving watermark".data)

/-- Source `len(set(text1) & set(text2)) >= min_len * 0.6`. -/
def commonCharsCheck (t1 t2 : String) : Bool :=
  let common := (t1.data.toFinset ∩ t2.data.toFinset).card
  let min_len := min t1.length t2.length
  decide ((min_len : ℚ) * (6 / 10) ≤ (common : ℚ))

/-- The double loop looking for a shared 3-character substring
(`text1[i:i+3] == text2[j:j+3]`). -/
def threeCharMatch (a b : List Char) : Bool :=
  (List.range (a.length - 2)).any fun i =>
    (List.range (b.length - 2)).any fun j =>
      decide ((a.drop i).take 3 = (b.drop j).take 3)

/-- The rough edit-distance block guarded by `len(text1) >= 3 and
len(text2) >= 3`: character overlap, then (for length ≥ 4) a shared
3-character substring. -/
def roughEditCheck (t1 t2 : String) : Bool :=
  decide (3 ≤ t1.length) && decide (3 ≤ t2.length) &&
  (commonCharsCheck t1 t2 ||
   (decide (4 ≤ t1.length) && decide (4 ≤ t2.length) &&
    threeCharMatch t1.data t2.data))

/-- Source `_texts_are_similar`.  The source is a chain of `return True` checks in
the order written below; the chain is rendered as a disjunction. -/
def textsAreSimilar (text1 text2 : String) : Bool :=
  if text1 = "" || text2 = "" then false
  else
    let t1 := pyStrip (pyLower text1)
    let t2 := pyStrip (pyLower text2)
    let n1 := normChars t1
    let n2 := normChars t2
    decide (t1 = t2) ||
    containedCheck t1 t2 ||
    crossPhraseCheck n1 n2 ||
    sharedFragmentCheck n1 n2 ||
    targetSubstringCheck t1 t2 n1 n2 ||
    roughEditCheck t1 t2

/-! ### Timeline Builder (`_create_watermark_timelines`, lines 1307-1527) -/

/-- Timestamp/frame-counter patterns of the noise filter. -/
def tsPatterns : List String := ["00:", "fps", "frame", "sec"]

/-- Watermark indicator substrings used when scoring filter survivors. -/
def scoreIndicators : List String :=
  ["www", ".com", "©", "®", "™", "watermark", "moving", "mark", "water",
   "mov", "ving", "ater", "emark"]

/-- Watermark indicator substrings used inside the fuzzy grouping step. -/
def groupIndicators : List String :=
  ["watermark", "moving", "mark", "water", "mov", "ving", "ater", "emark"]

/-- The noise filter of `_create_watermark_timelines` (lines 1313-1330): a
chain of `continue` conditions.  The third condition is kept exactly as in
the source even though the second one (`len(text) < 2`) already discards
every one-character text, leaving it unreachable. -/
def noiseKeep (d : Det) : Bool :=
  let text := pyStrip d.text
  if d.confidence < 1 / 2 then false
  else if text.length < 2 then false
  else if text.length = 1 ∧ d.confidence < 7 / 10 then false
  else if tsPatterns.any (fun p => subStr p (pyLower text)) then false
  else true

/-- Source `is_likely_watermark` (lines 1333-1338). -/
def isLikelyWatermark (d : Det) : Bool :=
  let text := pyStrip d.text
  scoreIndicators.any (fun ind => subStr ind (pyLower text)) ||
  d.is_watermark ||
  decide (4 / 5 < d.confidence) ||
  (decide (3 ≤ text.length) && decide (3 / 5 < d.confidence))

/-- Source `watermark_score = confidence * (2.0 if is_likely_watermark else 1.0)`. -/
def watermarkScore (d : Det) : ℚ :=
  d.confidence * (if isLikelyWatermark d then 2 else 1)

/-- The filtering loop: survivors carry their `watermark_score`. -/
def noiseFilter (ds : List Det) : List Det :=
  ds.filterMap fun d =>
    if noiseKeep d then some { d with watermark_score := watermarkScore d } else none

/-- The relation of `filtered_detections.sort(key=watermark_score,
reverse=True)`. -/
def scoreDesc (a b : Det) : Prop := b.watermark_score ≤ a.watermark_score

instance : DecidableRel scoreDesc :=
  fun a b => inferInstanceAs (Decidable (b.watermark_score ≤ a.watermark_score))

instance : IsTotal Det scoreDesc := ⟨fun a b => le_total b.watermark_score a.watermark_score⟩

instance : IsTrans Det scoreDesc := ⟨fun _ _ _ h1 h2 => le_trans h2 h1⟩

/-- Filter, sort by score descending, cap to the top 20
(`filtered_detections[:20]`). -/
def timelineCandidates (ds : List Det) : List Det :=
  (List.insertionSort scoreDesc (noiseFilter ds)).take 20

/-- Mean of the x coordinates of a detection list, as a rational. -/
def avgX (l : List Det) : ℚ := (l.map (fun d => (d.x : ℚ))).sum / l.length

/-- Mean of the y coordinates of a detection list. -/
def avgY (l : List Det) : ℚ := (l.map (fun d => (d.y : ℚ))).sum / l.length

/-- Minimum of a list of naturals (`0` on `[]`, which no caller reaches). -/
def listMinN : List Nat → Nat
  | [] => 0
  | x :: r => r.foldl min x

/-- Maximum of a list of naturals. -/
def listMaxN : List Nat → Nat
  | [] => 0
  | x :: r => r.foldl max x

/-- The inner acceptance test of the fuzzy text-group loop (lines 1372-1416):
after `text`/`existing_text` were found similar, short fragments need
temporal (±5s) and spatial (±100×±50) proximity; watermark-flagged longer
texts only need a bounded overall range (500×300); other longer texts need
±3s and ±200×±100 proximity. -/
def fuzzyAccept (text : String) (d : Det) (eds : List Det) (et : String) : Bool :=
  if text.length ≤ 2 ∨ et.length ≤ 2 then
    let recent := eds.filter (fun e => |e.timestamp - d.timestamp| < 5)
    ¬ recent.isEmpty &&
    decide (|(d.x : ℚ) - avgX recent| < 100) &&
    decide (|(d.y : ℚ) - avgY recent| < 50)
  else if d.is_watermark ||
          groupIndicators.any (fun i => subStr i (pyLower text)) then
    ¬ eds.isEmpty &&
    (let xs := eds.map (fun e => e.x) ++ [d.x]
     let ys := eds.map (fun e => e.y) ++ [d.y]
     decide (listMaxN xs - listMinN xs < 500) &&
     decide (listMaxN ys - listMinN ys < 300))
  else
    let recent := eds.filter (fun e => |e.timestamp - d.timestamp| < 3)
    ¬ recent.isEmpty &&
    decide (|(d.x : ℚ) - avgX recent| < 200) &&
    decide (|(d.y : ℚ) - avgY recent| < 100)

/-- Walks `text_groups.items()` in insertion order and appends `d` to the
first group whose key is textually similar and whose inner acceptance test
passes; `none` when no group matches. -/
def appendFirstFuzzy (text : String) (d : Det) :
    List (String × List Det) → Option (List (String × List Det))
  | [] => none
  | (et, eds) :: rest =>
    if text ≠ "" ∧ et ≠ "" ∧
       (subStr text et || subStr et text || textsAreSimilar text et) ∧
       fuzzyAccept text d eds et then
      some ((et, eds ++ [d]) :: rest)
    else
      match appendFirstFuzzy text d rest with
      | some r => some ((et, eds) :: r)
      | none => none

/-- The spatio-temporal acceptance test of the position-group loop
(lines 1420-1431): some member within 3s, and the detection within
±150×±80 of the recent members' average position. -/
def posAccept (d : Det) (g : List Det) : Bool :=
  let recent := g.filter (fun e => |e.timestamp - d.timestamp| < 3)
  ¬ recent.isEmpty &&
  decide (|(d.x : ℚ) - avgX recent| < 150) &&
  decide (|(d.y : ℚ) - avgY recent| < 80)

/-- Appends `d` to the first position group accepting it. -/
def appendFirstPos (d : Det) : List (List Det) → Option (List (List Det))
  | [] => none
  | g :: gs =>
    if posAccept d g then some ((g ++ [d]) :: gs)
    else
      match appendFirstPos d gs with
      | some r => some (g :: r)
      | none => none

/-- The grouping state: `text_groups` as an insertion-ordered association
list and `position_groups`. -/
structure GroupState where
  tg : List (String × List Det)
  pg : List (List Det)

/-- Source `text in text_groups` (key membership). -/
def dictHasKey (tg : List (String × List Det)) (k : String) : Bool :=
  tg.any (fun p => p.1 = k)

/-- Source `text_groups[k].append(d)` (keys are unique by construction). -/
def dictAppend (tg : List (String × List Det)) (k : String) (d : Det) :
    List (String × List Det) :=
  tg.map (fun p => if p.1 = k then (p.1, p.2 ++ [d]) else p)

/-- Source `text_groups[k] = v`: replace in place when the key exists, else insert
at the end (Python dict semantics). -/
def dictSet (tg : List (String × List Det)) (k : String) (v : List Det) :
    List (String × List Det) :=
  if dictHasKey tg k then tg.map (fun p => if p.1 = k then (k, v) else p)
  else tg ++ [(k, v)]

/-- One iteration of the grouping loop (lines 1353-1438): exact key match,
then the fuzzy text-group pass, then the position-group pass, then a new
group. -/
def groupStep (st : GroupState) (d : Det) : GroupState :=
  let text := pyStrip d.text
  if text ≠ "" ∧ dictHasKey st.tg text then
    { st with tg := dictAppend st.tg text d }
  else
    match appendFirstFuzzy text d st.tg with
    | some tg' => { st with tg := tg' }
    | none =>
      match appendFirstPos d st.pg with
      | some pg' => { st with pg := pg' }
      | none =>
        if text ≠ "" then { st with tg := st.tg ++ [(text, [d])] }
        else { st with pg := st.pg ++ [[d]] }

/-- Source `max(texts, key=len)`: first string of maximal length. -/
def maxByLen : List String → String
  | [] => ""
  | t :: ts => ts.foldl (fun best s => if best.length < s.length then s else best) t

/-- Conversion of multi-member position groups into text groups
(lines 1441-1450): keyed by the longest member text, or
`moving_element_{i}` when no member has text. -/
def convertPositionGroups (tg : List (String × List Det)) (pg : List (List Det)) :
    List (String × List Det) :=
  (pg.enum).foldl
    (fun acc p =>
      if 1 < p.2.length then
        let texts := (p.2.map (fun d => d.text)).filter (fun t => pyStrip t ≠ "")
        let group_text :=
          if ¬ texts.isEmpty then maxByLen texts
          else "moving_element_" ++ toString p.1
        dictSet acc group_text p.2
      else acc)
    tg

/-- One entry of a timeline's `positions` list. -/
structure Pos where
  x : Nat
  y : Nat
  width : Nat
  height : Nat
  confidence : ℚ
deriving DecidableEq, Repr, Inhabited

/-- A watermark timeline dictionary.  Single-detection timelines carry a
`movement_analysis` of `{'x_variance': 0, 'y_variance': 0}` in the source;
their missing range entries are modelled as `0`. -/
structure Timeline where
  text : String
  typ : String
  is_moving : Bool
  positions : List Pos
  x_variance : ℚ
  y_variance : ℚ
  x_range : Nat
  y_range : Nat
  confidence : ℚ
  is_watermark : Bool
  detections : List Det
deriving DecidableEq, Repr, Inhabited

/-- Source `np.var` over integer coordinates, in exact rational arithmetic. -/
def varNat (xs : List Nat) : ℚ :=
  let n : ℚ := xs.length
  let μ := (xs.map (fun x => (x : ℚ))).sum / n
  (xs.map (fun x => ((x : ℚ) - μ) ^ 2)).sum / n

/-- The movement classification block (lines 1495-1502). -/
def classifyMovement (xv yv : ℚ) : String :=
  if 100 < xv ∨ 100 < yv then
    if yv * 2 < xv then "horizontal"
    else if xv * 2 < yv then "vertical"
    else "complex"
  else "static"

/-- The relation of `detections_list.sort(key=lambda x: x.get('timestamp', 0))`. -/
def tsAsc (a b : Det) : Prop := a.timestamp ≤ b.timestamp

instance : DecidableRel tsAsc :=
  fun a b => inferInstanceAs (Decidable (a.timestamp ≤ b.timestamp))

instance : IsTotal Det tsAsc := ⟨fun a b => le_total a.timestamp b.timestamp⟩

instance : IsTrans Det tsAsc := ⟨fun _ _ _ h1 h2 => le_trans h1 h2⟩

/-- Source `positions` entries built from a detection list. -/
def mkPositions (ds : List Det) : List Pos :=
  ds.map (fun d => ⟨d.x, d.y, d.width, d.height, d.confidence⟩)

/-- Timeline construction for one text group (lines 1454-1522).  For a
single detection the average confidence equals its confidence, so the
`avg_confidence < 0.7 and len == 1` guard becomes `confidence < 0.7`; for
two or more detections that guard cannot fire. -/
def buildTimeline (text : String) (ds : List Det) : Option Timeline :=
  match ds with
  | [] => none
  | [d] =>
    if d.confidence < 7 / 10 then none
    else if d.confidence < 4 / 5 ∧ ¬ d.is_watermark then none
    else some
      { text := text, typ := "static", is_moving := false,
        positions := mkPositions [d],
        x_variance := 0, y_variance := 0, x_range := 0, y_range := 0,
        confidence := d.confidence, is_watermark := d.is_watermark,
        detections := [d] }
  | ds =>
    let sorted := List.insertionSort tsAsc ds
    let xs := sorted.map (fun d => d.x)
    let ys := sorted.map (fun d => d.y)
    let xv := if 1 < xs.length then varNat xs else 0
    let yv := if 1 < ys.length then varNat ys else 0
    let mt := classifyMovement xv yv
    some
      { text := text, typ := mt,
        is_moving := mt = "horizontal" ∨ mt = "vertical" ∨ mt = "complex",
        positions := mkPositions sorted,
        x_variance := xv, y_variance := yv,
        x_range := listMaxN xs - listMinN xs,
        y_range := listMaxN ys - listMinN ys,
        confidence := qMaxConf sorted,
        is_watermark := sorted.any (fun d => d.is_watermark),
        detections := sorted }

/-- The relation of `watermark_timelines.sort(key=confidence, reverse=True)`. -/
def tlConfDesc (a b : Timeline) : Prop := b.confidence ≤ a.confidence

instance : DecidableRel tlConfDesc :=
  fun a b => inferInstanceAs (Decidable (b.confidence ≤ a.confidence))

instance : IsTotal Timeline tlConfDesc := ⟨fun a b => le_total b.confidence a.confidence⟩

instance : IsTrans Timeline tlConfDesc := ⟨fun _ _ _ h1 h2 => le_trans h2 h1⟩

/-- Source `_create_watermark_timelines`: filter and score, cap to the top 20,
group, convert multi-member position groups, build timelines, sort by
confidence descending. -/
def createWatermarkTimelines (detections : List Det) : List Timeline :=
  let candidates := timelineCandidates detections
  let st := candidates.foldl groupStep ⟨[], []⟩
  let tg := convertPositionGroups st.tg st.pg
  List.insertionSort tlConfDesc (tg.filterMap (fun p => buildTimeline p.1 p.2))

/-! ### Region Proposer (`detect_logos_in_corners` and its OCR sub-passes)

The external capabilities are modelled as oracles.  A sub-rectangle of the
fixed frame is identified by its absolute position and size
`(x, y, w, h)`, which determines its pixel content, so each oracle is a
function of those four numbers. -/

/-- One row of `cv2.connectedComponentsWithStats` (background row already
dropped, as in the source's `range(1, num_labels)` loop). -/
structure CCStat where
  x : Nat
  y : Nat
  width : Nat
  height : Nat
  area : Nat
deriving DecidableEq, Repr

/-- The external capabilities consumed by the Region Proposer:
`ocrText` is the `best_text` of the pytesseract config loop in
`_detect_text_with_ocr`; `fullRegionText` the analogous result in
`_detect_text_with_ocr_full_region`; `roiText` the per-component OCR text in
`_detect_text_regions_selective`; `isWatermarkText` the regex classifier
`_is_watermark_text`; `ccStats` the OpenCV connected-component statistics.
An unavailable OCR backend is the oracle returning `""` everywhere. -/
structure Oracles where
  ocrText : Nat → Nat → Nat → Nat → String
  fullRegionText : Nat → Nat → Nat → Nat → String
  roiText : Nat → Nat → Nat → Nat → String
  isWatermarkText : String → Bool
  ccStats : Nat → Nat → Nat → Nat → List CCStat

/-- Source `_detect_text_with_ocr_full_region` (lines 249-318): only fires on
regions of at most 200×300; on a watermark text of length > 2 it emits one
box expanded by `min(10, int(w*0.1))` / `min(8, int(h*0.1))` padding (the
truncated float products are modelled as `w / 10` and `h / 10`; no theorem
below depends on their exact values). -/
def detectTextWithOcrFullRegion (O : Oracles) (offX offY w h : Nat) : List Det :=
  if 200 < h ∨ 300 < w then []
  else
    let t := O.fullRegionText offX offY w h
    if 2 < t.length then
      if O.isWatermarkText t then
        let px := min 10 (w / 10)
        let py := min 8 (h / 10)
        [{ x := max 0 (offX - px), y := max 0 (offY - py),
           width := w + 2 * px, height := h + 2 * py,
           confidence := 4 / 5, typ := "ocr_full_region", text := t,
           is_watermark := true, corner := "full_region_scan" }]
      else []
    else []

/-- Source `_detect_text_with_ocr` (lines 164-247).  Regions under 20 pixels are
skipped; regions over 400 pixels run the full-region pass and recurse into
the four corner quadrants (`h//3`/`2*h//3` splits); otherwise the
pytesseract result becomes one box covering the whole region.  Each
recursive call strictly decreases `w + h`, which the explicit fuel argument
(initialised to `w + h` by `detectTextWithOcr`) makes structural. -/
def detectTextWithOcrFuel (O : Oracles) : Nat → Nat → Nat → Nat → Nat → List Det
  | 0, _, _, _, _ => []
  | fuel + 1, offX, offY, w, h =>
    if h < 20 ∨ w < 20 then []
    else if 400 < h ∨ 400 < w then
      let full := detectTextWithOcrFullRegion O offX offY w h
      if full.any (fun d => d.is_watermark && decide ((7 : ℚ) / 10 < d.confidence)) then
        full
      else
        let subs : List (Nat × Nat × Nat × Nat) :=
          [(0, 0, w / 3, h / 3),
           (2 * w / 3, 0, w - 2 * w / 3, h / 3),
           (0, 2 * h / 3, w / 3, h - 2 * h / 3),
           (2 * w / 3, 2 * h / 3, w - 2 * w / 3, h - 2 * h / 3)]
        full ++ subs.flatMap fun s =>
          if 0 < s.2.2.1 * s.2.2.2 then
            detectTextWithOcrFuel O fuel (offX + s.1) (offY + s.2.1) s.2.2.1 s.2.2.2
          else []
    else
      let t := O.ocrText offX offY w h
      if 1 < t.length then
        let iwm := O.isWatermarkText t
        [{ x := offX, y := offY, width := w, height := h,
           confidence := if iwm then 4 / 5 else 1 / 2,
           typ := "ocr_tesseract", text := t, is_watermark := iwm,
           corner := "ocr_detected" }]
      else []

/-- Source `_detect_text_with_ocr` at its natural fuel. -/
def detectTextWithOcr (O : Oracles) (offX offY w h : Nat) : List Det :=
  detectTextWithOcrFuel O (w + h) offX offY w h

/-- Source `_detect_text_regions_selective` (lines 987-1075), with pytesseract
available (without it the loop appends nothing, which only removes output).
The geometry of every branch — OCR text found, no readable text, and the
exception fallback — is the connected component's rectangle offset into the
frame; the two non-exception branches are modelled. -/
def detectTextRegionsSelective (O : Oracles) (offX offY w h : Nat) : List Det :=
  (O.ccStats offX offY w h).flatMap fun s =>
    if 20 < s.width ∧ 10 < s.height ∧
       (s.width : ℚ) < (w : ℚ) * (8 / 10) ∧ (s.height : ℚ) < (h : ℚ) * (8 / 10) ∧
       (2 : ℚ) / 10 ≤ (s.height : ℚ) / (s.width : ℚ) ∧
       (s.height : ℚ) / (s.width : ℚ) ≤ 2 ∧ 100 < s.area then
      let conf := min ((s.area : ℚ) / ((s.width : ℚ) * (s.height : ℚ))) 1
      if (3 : ℚ) / 10 < conf then
        let t := O.roiText (offX + s.x) (offY + s.y) s.width s.height
        if 1 < t.length then
          let iwm := O.isWatermarkText t
          [{ x := offX + s.x, y := offY + s.y, width := s.width, height := s.height,
             confidence := if iwm then 4 / 5 else conf, typ := "text_selective",
             text := t, is_watermark := iwm, corner := "selective_ocr" }]
        else
          [{ x := offX + s.x, y := offY + s.y, width := s.width, height := s.height,
             confidence := conf, typ := "text_selective", text := "",
             is_watermark := false, corner := "selective_shape" }]
      else []
    else []

/-- Source `_detect_logos_in_region` (lines 148-162): OCR first; the selective
shape pass only when no OCR box was classified as a watermark. -/
def detectLogosInRegion (O : Oracles) (offX offY w h : Nat) : List Det :=
  let ocrBoxes := detectTextWithOcr O offX offY w h
  if ocrBoxes.any (fun b => b.is_watermark) then ocrBoxes
  else ocrBoxes ++ detectTextRegionsSelective O offX offY w h

/-- The in-bounds clamping applied to every named region before analysis
(`x = max(0, min(x, w - 1)); cw = min(cw, w - x)` and likewise for `y`). -/
def clipRect (w h : Nat) (r : Nat × Nat × Nat × Nat) : Nat × Nat × Nat × Nat :=
  let x := max 0 (min r.1 (w - 1))
  let y := max 0 (min r.2.1 (h - 1))
  (x, y, min r.2.2.1 (w - x), min r.2.2.2 (h - y))

/-- The eight corner/center regions of `detect_logos_in_corners`.
`cw`/`ch` stand for `corner_w = int(w * corner_size)` and
`corner_h = int(h * corner_size)`; the truncated float products are taken
as parameters and the bounds theorem holds for every value. -/
def cornerRegions (w h cw ch : Nat) : List (String × (Nat × Nat × Nat × Nat)) :=
  [("top_left", (0, 0, cw, ch)),
   ("top_right", (w - cw, 0, cw, ch)),
   ("bottom_left", (0, h - ch, cw, ch)),
   ("bottom_right", (w - cw, h - ch, cw, ch)),
   ("top_center", (w / 2 - cw / 2, 0, cw, ch / 2)),
   ("bottom_center", (w / 2 - cw / 2, h - ch / 2, cw, ch / 2)),
   ("left_center", (0, h / 2 - ch / 2, cw / 2, ch)),
   ("right_center", (w - cw / 2, h / 2 - ch / 2, cw / 2, ch))]

/-- The four wide edge strips.  `eh, ey, ew, ex` stand for `int(h * 0.2)`,
`int(h * 0.8)`, `int(w * 0.2)`, `int(w * 0.8)`; again taken as parameters. -/
def edgeRegions (w h eh ey ew ex : Nat) : List (String × (Nat × Nat × Nat × Nat)) :=
  [("top_edge", (0, 0, w, eh)),
   ("bottom_edge", (0, ey, w, eh)),
   ("left_edge", (0, 0, ew, h)),
   ("right_edge", (ex, 0, ew, h))]

/-- Source `detect_logos_in_corners` (lines 85-146): clamp each named region into
the frame, skip empty regions, analyse the rest, and tag each resulting box
with its region name. -/
def detectLogosInCorners (O : Oracles) (w h cw ch eh ey ew ex : Nat) : List Det :=
  (cornerRegions w h cw ch ++ edgeRegions w h eh ey ew ex).flatMap fun nr =>
    let c := clipRect w h nr.2
    if 0 < c.2.2.1 ∧ 0 < c.2.2.2 then
      (detectLogosInRegion O c.1 c.2.1 c.2.2.1 c.2.2.2).map
        (fun b => { b with corner := nr.1 })
    else []

/-! ### Frame extraction and the timeline analysis loop
(`extract_frame` lines 58-83, `detect_logos_with_timeline` lines 1257-1305) -/

/-- An extracted frame: its dimensions together with the derived region
sizes of `detect_logos_in_corners` (see `cornerRegions`/`edgeRegions`). -/
structure Frame where
  w : Nat
  h : Nat
  cw : Nat
  ch : Nat
  eh : Nat
  ey : Nat
  ew : Nat
  ex : Nat
deriving DecidableEq, Repr

/-- The possible outcomes of one `extract_frame` call: an exception inside
the `try` block, a nonzero ffmpeg return code, or an `cv2.imread` result
(`none` when the written file is unreadable). -/
inductive ExtractResult where
  | exn
  | procFailed
  | ok (frame : Option Frame)
deriving DecidableEq, Repr

/-- Source `extract_frame`: every failure path returns `None` rather than raising. -/
def extractFrame : ExtractResult → Option Frame
  | .exn => none
  | .procFailed => none
  | .ok f => f

/-- Source `detect_logos_in_corners` applied to a frame record. -/
def detectLogosInCornersF (O : Oracles) (f : Frame) : List Det :=
  detectLogosInCorners O f.w f.h f.cw f.ch f.eh f.ey f.ew f.ex

/-- The sampling loop of `detect_logos_with_timeline`: a `None` frame is
skipped with `continue`; detections of a successful frame are tagged with
the sample's enumeration index and timestamp.  The sample list pairs each
timestamp with the outcome of its `extract_frame` call. -/
def allDetections (O : Oracles) (samples : List (ℚ × ExtractResult)) : List Det :=
  (samples.enum).foldl
    (fun acc p =>
      match extractFrame p.2.2 with
      | none => acc
      | some f =>
        acc ++ (detectLogosInCornersF O f).map
          (fun d => { d with frame_index := p.1, timestamp := p.2.1 }))
    []

/-- Source `detect_logos_with_timeline` after timestamp sampling: analyse each
sampled frame and fold all detections into timelines. -/
def detectLogosWithTimeline (O : Oracles) (samples : List (ℚ × ExtractResult)) :
    List Timeline :=
  createWatermarkTimelines (allDetections O samples)

/-! ### Timeline Selector dispatch
(`video_operations.py`, `_remove_multiple_watermarks` lines 384-410 and
`_remove_combined_watermarks` lines 412-441) -/

/-- Source `max(group, key=lambda w: w['confidence'])`: the first member of maximal
confidence; `none` on an empty group (where Python `max` would raise). -/
def bestOfGroup : List Det → Option Det
  | [] => none
  | d :: rest =>
    some (rest.foldl (fun best e => if best.confidence < e.confidence then e else best) d)

/-- The combined watermark object of `_remove_combined_watermarks`: the
union of all boxes, padded by 10 pixels (clamped at 0 on the left/top). -/
def combineWatermarks : List Det → Option Det
  | [] => none
  | ws =>
    let min_x := max 0 (dMin (fun d => d.x) ws - 10)
    let min_y := max 0 (dMin (fun d => d.y) ws - 10)
    some
      { x := min_x, y := min_y,
        width := dMax (fun d => d.x + d.width) ws - min_x + 10,
        height := dMax (fun d => d.y + d.height) ws - min_y + 10,
        confidence := qMaxConf ws,
        typ := "combined_watermarks", corner := "multiple_areas" }

/-- The removal action started by the dispatcher: one combined-region pass,
or removal of a single watermark. -/
inductive RemovalPlan where
  | combined (wm : Det)
  | single (wm : Det)
deriving DecidableEq, Repr

/-- Source `_remove_multiple_watermarks`: take the most confident watermark of each
group, sort them by confidence descending, then either remove them in one
combined pass (at most 3) or fall back to the single most confident one. -/
def removeMultipleWatermarks (groups : List (List Det)) : Option RemovalPlan :=
  match groups.mapM bestOfGroup with
  | none => none
  | some all =>
    let sorted := List.insertionSort confDesc all
    if sorted.length ≤ 3 then
      (combineWatermarks sorted).map RemovalPlan.combined
    else
      match sorted with
      | [] => none
      | w :: _ => some (RemovalPlan.single w)

/-! ### Coordinate validation (`_validate_coordinates`, lines 1683-1699) -/

/-- A validated removal rectangle. -/
structure VRect where
  x : Int
  y : Int
  w : Int
  h : Int
deriving DecidableEq, Repr

/-- Source `_validate_coordinates`: clamp the origin into the frame, cut the size
to leave a one-pixel margin, then enforce the 2-pixel ffmpeg minimum. -/
def validateCoordinates (x y w h video_width video_height : Int) : VRect :=
  let x1 := max 0 (min x (video_width - 1))
  let y1 := max 0 (min y (video_height - 1))
  let max_w := video_width - x1
  let max_h := video_height - y1
  let w1 := min w (max_w - 1)
  let h1 := min h (max_h - 1)
  ⟨x1, y1, max w1 2, max h1 2⟩

/-! ### Shared helper lemmas -/

theorem foldl_min_le_init (g : Det → Nat) :
    ∀ (l : List Det) (a : Nat), l.foldl (fun acc e => min acc (g e)) a ≤ a := by
  intro l
  induction l with
  | nil => intro a; exact le_refl a
  | cons d t ih =>
    intro a
    exact le_trans (ih (min a (g d))) (Nat.min_le_left _ _)

theorem foldl_min_le_mem (g : Det → Nat) :
    ∀ (l : List Det) (a : Nat) (d : Det), d ∈ l →
      l.foldl (fun acc e => min acc (g e)) a ≤ g d := by
  intro l
  induction l with
  | nil => intro a d h; exact absurd h (List.not_mem_nil d)
  | cons e t ih =>
    intro a d h
    rcases List.mem_cons.mp h with h | h
    · subst h
      exact le_trans (foldl_min_le_init g t _) (Nat.min_le_right _ _)
    · exact ih _ d h

theorem init_le_foldl_max (g : Det → Nat) :
    ∀ (l : List Det) (a : Nat), a ≤ l.foldl (fun acc e => max acc (g e)) a := by
  intro l
  induction l with
  | nil => intro a; exact le_refl a
  | cons d t ih =>
    intro a
    exact le_trans (Nat.le_max_left _ _) (ih (max a (g d)))

theorem mem_le_foldl_max (g : Det → Nat) :
    ∀ (l : List Det) (a : Nat) (d : Det), d ∈ l →
      g d ≤ l.foldl (fun acc e => max acc (g e)) a := by
  intro l
  induction l with
  | nil => intro a d h; exact absurd h (List.not_mem_nil d)
  | cons e t ih =>
    intro a d h
    rcases List.mem_cons.mp h with h | h
    · subst h
      exact le_trans (Nat.le_max_right _ _) (init_le_foldl_max g t _)
    · exact ih _ d h

theorem dMin_le (g : Det → Nat) {l : List Det} {d : Det} (h : d ∈ l) :
    dMin g l ≤ g d := by
  cases l with
  | nil => exact absurd h (List.not_mem_nil d)
  | cons e t =>
    rcases List.mem_cons.mp h with h | h
    · subst h; exact foldl_min_le_init g t _
    · exact foldl_min_le_mem g t _ d h

theorem le_dMax (g : Det → Nat) {l : List Det} {d : Det} (h : d ∈ l) :
    g d ≤ dMax g l := by
  cases l with
  | nil => exact absurd h (List.not_mem_nil d)
  | cons e t =>
    rcases List.mem_cons.mp h with h | h
    · subst h; exact init_le_foldl_max g t _
    · exact mem_le_foldl_max g t _ d h

/-! ### C3 — merging is not idempotent -/

/-- A lone text detection; its box grows by one pixel of self-padding on
every application of the merger. -/
def c3det : Det :=
  { x := 100, y := 100, width := 8, height := 4, confidence := 9 / 10,
    typ := "text", text := "ab" }

/-- C3 counterexample: `merge_overlapping_detections` applied to its own
output changes the rectangle of a single-detection cluster (the self-padding
`min(8, width // 8, height // 4)` is re-applied), so merging is not
idempotent as claimed. -/
theorem C3_merge_not_idempotent_cex :
    mergeOverlappingDetections (mergeOverlappingDetections [c3det] (3 / 10)) (3 / 10) ≠
      mergeOverlappingDetections [c3det] (3 / 10) := by
  with_unfolding_all decide

theorem mergeLoopFuel_length_le (threshold : ℚ) :
    ∀ (fuel : Nat) (l : List Det),
      (mergeLoopFuel threshold fuel l).length ≤ l.length := by
  intro fuel
  induction fuel with
  | zero => intro l; simp [mergeLoopFuel]
  | succ n ih =>
    intro l
    cases l with
    | nil => simp [mergeLoopFuel]
    | cons d rest =>
      simp only [mergeLoopFuel, List.length_cons]
      have h1 := ih (rest.filter (fun e => ¬ shouldMergeWith threshold d e))
      have h2 := List.length_filter_le (fun e => ¬ shouldMergeWith threshold d e) rest
      omega

theorem mergeOverlapping_length_le (l : List Det) (threshold : ℚ) :
    (mergeOverlappingDetections l threshold).length ≤ l.length := by
  unfold mergeOverlappingDetections
  split
  · simp
  · calc (mergeLoopFuel threshold (List.insertionSort confDesc l).length
        (List.insertionSort confDesc l)).length
        ≤ (List.insertionSort confDesc l).length := mergeLoopFuel_length_le _ _ _
      _ = l.length := List.length_insertionSort confDesc l

/-- C3 (amended): re-applying `merge_overlapping_detections` to its own
output never increases the number of detections — each pass emits at most
one merged detection per input detection — but it is not the identity:
every pass re-pads single-detection clusters, so rectangles can change
(see the counterexample). -/
theorem C3_merge_reapplication_no_increase (l : List Det) (threshold : ℚ) :
    (mergeOverlappingDetections (mergeOverlappingDetections l threshold) threshold).length ≤
      (mergeOverlappingDetections l threshold).length :=
  mergeOverlapping_length_le _ _

/-! ### C2 — merged boxes cover their constituents up to the size clamp -/

theorem paddedX_le_clusterMinX (ds : List Det) : paddedX ds ≤ clusterMinX ds := by
  unfold paddedX
  rw [Nat.zero_max]
  exact Nat.sub_le _ _

theorem paddedY_le_clusterMinY (ds : List Det) : paddedY ds ≤ clusterMinY ds := by
  unfold paddedY
  rw [Nat.zero_max]
  exact Nat.sub_le _ _

theorem right_le_padded (ds : List Det) {d : Det} (h : d ∈ ds) :
    d.x + d.width ≤ paddedX ds + paddedW ds := by
  have h1 : clusterMinX ds ≤ d.x := dMin_le _ h
  have h2 : d.x + d.width ≤ clusterMaxX ds := by
    unfold clusterMaxX; exact le_dMax (fun e => e.x + e.width) h
  unfold paddedX paddedW
  rw [Nat.zero_max]
  omega

theorem bottom_le_padded (ds : List Det) {d : Det} (h : d ∈ ds) :
    d.y + d.height ≤ paddedY ds + paddedH ds := by
  have h1 : clusterMinY ds ≤ d.y := dMin_le _ h
  have h2 : d.y + d.height ≤ clusterMaxY ds := by
    unfold clusterMaxY; exact le_dMax (fun e => e.y + e.height) h
  unfold paddedY paddedH
  rw [Nat.zero_max]
  omega

/-- C2: for a cluster of two or more detections, on each axis the merged box
either covers every constituent (when the padded span respects the 300×100
maximum) or, when the clamp fired, keeps the integer-pixel center
(`x + width / 2`) of the unclamped padded box. -/
theorem C2_merged_box_covers_constituents (ds : List Det) (m : Det)
    (h2 : 2 ≤ ds.length) (hm : mergeMultipleDetections ds = some m) :
    (paddedW ds ≤ 300 → ∀ d ∈ ds, m.x ≤ d.x ∧ d.x + d.width ≤ m.x + m.width) ∧
    (paddedH ds ≤ 100 → ∀ d ∈ ds, m.y ≤ d.y ∧ d.y + d.height ≤ m.y + m.height) ∧
    (300 < paddedW ds → m.width = 300 ∧
      m.x + m.width / 2 = paddedX ds + paddedW ds / 2) ∧
    (100 < paddedH ds → m.height = 100 ∧
      m.y + m.height / 2 = paddedY ds + paddedH ds / 2) := by
  match ds, h2 with
  | a :: b :: t, _ =>
    have hmm : m = mergeCluster (a :: b :: t) := by
      simpa [mergeMultipleDetections] using hm.symm
    subst hmm
    refine ⟨?_, ?_, ?_, ?_⟩
    · intro hW d hd
      have hx : (mergeCluster (a :: b :: t)).x = paddedX (a :: b :: t) := by
        simp [mergeCluster, Nat.not_lt.mpr hW]
      have hw : (mergeCluster (a :: b :: t)).width = paddedW (a :: b :: t) := by
        simp [mergeCluster, Nat.not_lt.mpr hW]
      rw [hx, hw]
      exact ⟨le_trans (paddedX_le_clusterMinX _) (dMin_le _ hd), right_le_padded _ hd⟩
    · intro hH d hd
      have hy : (mergeCluster (a :: b :: t)).y = paddedY (a :: b :: t) := by
        simp [mergeCluster, Nat.not_lt.mpr hH]
      have hh : (mergeCluster (a :: b :: t)).height = paddedH (a :: b :: t) := by
        simp [mergeCluster, Nat.not_lt.mpr hH]
      rw [hy, hh]
      exact ⟨le_trans (paddedY_le_clusterMinY _) (dMin_le _ hd), bottom_le_padded _ hd⟩
    · intro hW
      have hx : (mergeCluster (a :: b :: t)).x =
          max 0 (paddedX (a :: b :: t) + paddedW (a :: b :: t) / 2 - 150) := by
        simp [mergeCluster, hW]
      have hw : (mergeCluster (a :: b :: t)).width = 300 := by
        simp [mergeCluster, hW]
      rw [hx, hw, Nat.zero_max]
      exact ⟨rfl, by omega⟩
    · intro hH
      have hy : (mergeCluster (a :: b :: t)).y =
          max 0 (paddedY (a :: b :: t) + paddedH (a :: b :: t) / 2 - 50) := by
        simp [mergeCluster, hH]
      have hh : (mergeCluster (a :: b :: t)).height = 100 := by
        simp [mergeCluster, hH]
      rw [hy, hh, Nat.zero_max]
      exact ⟨rfl, by omega⟩

/-- First constituent of the C2 witness cluster. -/
def c2d1 : Det := { x := 0, y := 0, width := 10, height := 10 }

/-- Second constituent of the C2 witness cluster. -/
def c2d2 : Det := { x := 20, y := 5, width := 10, height := 10 }

/-- Witness for C2: a concrete two-detection cluster whose padded span stays
under the clamp, so the merged box covers the first constituent. -/
theorem C2_merged_box_covers_constituents_witness :
    (mergeCluster [c2d1, c2d2]).x ≤ c2d1.x ∧
    c2d1.x + c2d1.width ≤ (mergeCluster [c2d1, c2d2]).x + (mergeCluster [c2d1, c2d2]).width :=
  (C2_merged_box_covers_constituents [c2d1, c2d2] (mergeCluster [c2d1, c2d2])
    (by decide) rfl).1 (by decide) c2d1 (by with_unfolding_all decide)

/-! ### C4 — movement classification from the position variances -/

theorem varNat_nonneg (xs : List Nat) : 0 ≤ varNat xs := by
  unfold varNat
  apply div_nonneg
  · apply List.sum_nonneg
    intro q hq
    simp only [List.mem_map] at hq
    obtain ⟨x, _, rfl⟩ := hq
    positivity
  · exact_mod_cast Nat.zero_le xs.length

theorem classifyMovement_characterization (xv yv : ℚ) (hx : 0 ≤ xv) (hy : 0 ≤ yv) :
    (classifyMovement xv yv = "static" ↔ xv ≤ 100 ∧ yv ≤ 100) ∧
    (classifyMovement xv yv = "horizontal" ↔ (100 < xv ∨ 100 < yv) ∧ yv * 2 < xv) ∧
    (classifyMovement xv yv = "vertical" ↔ (100 < xv ∨ 100 < yv) ∧ xv * 2 < yv) ∧
    (classifyMovement xv yv = "complex" ↔
      (100 < xv ∨ 100 < yv) ∧ xv ≤ yv * 2 ∧ yv ≤ xv * 2) := by
  unfold classifyMovement
  split_ifs with hbig hh hv
  · refine ⟨⟨fun h => absurd h (by decide), fun ⟨h1, h2⟩ => ?_⟩,
      ⟨fun _ => ⟨hbig, hh⟩, fun _ => rfl⟩,
      ⟨fun h => absurd h (by decide), fun ⟨_, h2⟩ => ?_⟩,
      ⟨fun h => absurd h (by decide), fun ⟨_, h2, _⟩ => ?_⟩⟩
    · rcases hbig with hb | hb <;> linarith
    · linarith
    · linarith
  · refine ⟨⟨fun h => absurd h (by decide), fun ⟨h1, h2⟩ => ?_⟩,
      ⟨fun h => absurd h (by decide), fun ⟨_, h2⟩ => absurd h2 hh⟩,
      ⟨fun _ => ⟨hbig, hv⟩, fun _ => rfl⟩,
      ⟨fun h => absurd h (by decide), fun ⟨_, _, h3⟩ => ?_⟩⟩
    · rcases hbig with hb | hb <;> linarith
    · linarith
  · refine ⟨⟨fun h => absurd h (by decide), fun ⟨h1, h2⟩ => ?_⟩,
      ⟨fun h => absurd h (by decide), fun ⟨_, h2⟩ => absurd h2 hh⟩,
      ⟨fun h => absurd h (by decide), fun ⟨_, h2⟩ => absurd h2 hv⟩,
      ⟨fun _ => ⟨hbig, not_lt.mp hh, not_lt.mp hv⟩, fun _ => rfl⟩⟩
    rcases hbig with hb | hb <;> linarith
  · push_neg at hbig
    refine ⟨⟨fun _ => hbig, fun _ => rfl⟩,
      ⟨fun h => absurd h (by decide), fun ⟨h1, _⟩ => ?_⟩,
      ⟨fun h => absurd h (by decide), fun ⟨h1, _⟩ => ?_⟩,
      ⟨fun h => absurd h (by decide), fun ⟨h1, _⟩ => ?_⟩⟩ <;>
    · rcases h1 with hb | hb
      · exact absurd hbig.1 (not_le.mpr hb)
      · exact absurd hbig.2 (not_le.mpr hb)

/-- C4: every timeline the Timeline Builder produces with at least two
positions is classified purely from the stored `x_variance`/`y_variance`:
first `static` when both are at most 100, else `horizontal` when
`x_variance > 2 * y_variance`, else `vertical` when
`y_variance > 2 * x_variance`, else `complex` when the two variances are
within a factor of two of each other — never an arbitrary pick. -/
theorem C4_movement_classification (ds : List Det) (tl : Timeline)
    (htl : tl ∈ createWatermarkTimelines ds) (hpos : 2 ≤ tl.positions.length) :
    (tl.typ = "static" ↔ tl.x_variance ≤ 100 ∧ tl.y_variance ≤ 100) ∧
    (tl.typ = "horizontal" ↔
      (100 < tl.x_variance ∨ 100 < tl.y_variance) ∧ tl.y_variance * 2 < tl.x_variance) ∧
    (tl.typ = "vertical" ↔
      (100 < tl.x_variance ∨ 100 < tl.y_variance) ∧ tl.x_variance * 2 < tl.y_variance) ∧
    (tl.typ = "complex" ↔
      (100 < tl.x_variance ∨ 100 < tl.y_variance) ∧
      tl.x_variance ≤ tl.y_variance * 2 ∧ tl.y_variance ≤ tl.x_variance * 2) := by
  unfold createWatermarkTimelines at htl
  rw [(List.perm_insertionSort tlConfDesc _).mem_iff, List.mem_filterMap] at htl
  obtain ⟨⟨ptext, pds⟩, _, hbuild⟩ := htl
  match pds with
  | [] => simp [buildTimeline] at hbuild
  | [d] =>
    simp only [buildTimeline] at hbuild
    split_ifs at hbuild
    rw [Option.some_inj] at hbuild
    subst hbuild
    dsimp only
    refine ⟨?_, ?_, ?_, ?_⟩ <;> with_unfolding_all decide
  | a :: b :: t =>
    simp only [buildTimeline] at hbuild
    rw [Option.some_inj] at hbuild
    subst hbuild
    dsimp only
    refine classifyMovement_characterization _ _ ?_ ?_ <;>
    · split
      · exact varNat_nonneg _
      · exact le_refl 0

/-- First detection of the C4 witness sample. -/
def c4d1 : Det :=
  { x := 0, y := 0, width := 30, height := 10, confidence := 9 / 10,
    text := "mark", timestamp := 1 }

/-- Second detection of the C4 witness sample. -/
def c4d2 : Det :=
  { x := 10, y := 0, width := 30, height := 10, confidence := 9 / 10,
    text := "mark", timestamp := 3 }

/-- Witness for C4 at a concrete two-sample input (one `static` timeline
with `x_variance = 25`, `y_variance = 0`). -/
theorem C4_movement_classification_witness :
    ((createWatermarkTimelines [c4d1, c4d2]).head!.typ = "static" ↔
      (createWatermarkTimelines [c4d1, c4d2]).head!.x_variance ≤ 100 ∧
      (createWatermarkTimelines [c4d1, c4d2]).head!.y_variance ≤ 100) :=
  (C4_movement_classification [c4d1, c4d2] (createWatermarkTimelines [c4d1, c4d2]).head!
    (by with_unfolding_all decide) (by with_unfolding_all decide)).1

/-! ### C7 — cap to the top 20 scored candidates before grouping -/

/-- C7: when more than 20 detections survive the noise filter, the candidate
list handed to the grouping step (`timelineCandidates`, which
`createWatermarkTimelines` consumes) is exactly the first 20 entries of the
stable descending sort by `watermark_score`: it has length exactly 20, it is
itself sorted descending, splitting the sort at 20 reconstructs it, and
every dropped survivor scores no higher than every kept one. -/
theorem C7_top20_candidates (ds : List Det) (h : 20 < (noiseFilter ds).length) :
    (timelineCandidates ds).length = 20 ∧
    (List.insertionSort scoreDesc (noiseFilter ds)).Perm (noiseFilter ds) ∧
    List.Pairwise scoreDesc (timelineCandidates ds) ∧
    timelineCandidates ds ++ (List.insertionSort scoreDesc (noiseFilter ds)).drop 20 =
      List.insertionSort scoreDesc (noiseFilter ds) ∧
    (∀ a ∈ timelineCandidates ds,
      ∀ b ∈ (List.insertionSort scoreDesc (noiseFilter ds)).drop 20,
        b.watermark_score ≤ a.watermark_score) := by
  have hsorted : List.Pairwise scoreDesc (List.insertionSort scoreDesc (noiseFilter ds)) :=
    List.sorted_insertionSort scoreDesc (noiseFilter ds)
  have hsplit : timelineCandidates ds ++
      (List.insertionSort scoreDesc (noiseFilter ds)).drop 20 =
      List.insertionSort scoreDesc (noiseFilter ds) :=
    List.take_append_drop 20 _
  have hcross := (List.pairwise_append.mp (hsplit ▸ hsorted)).2.2
  refine ⟨?_, List.perm_insertionSort scoreDesc (noiseFilter ds), ?_, hsplit, hcross⟩
  · unfold timelineCandidates
    rw [List.length_take, List.length_insertionSort]
    omega
  · exact hsorted.sublist (List.take_sublist 20 _)

/-- A detection that survives the noise filter. -/
def c7det : Det :=
  { x := 0, y := 0, width := 10, height := 10, confidence := 3 / 5, text := "abc" }

/-- Witness for C7: 21 filter survivors are truncated to exactly 20. -/
theorem C7_top20_candidates_witness :
    (timelineCandidates (List.replicate 21 c7det)).length = 20 :=
  (C7_top20_candidates (List.replicate 21 c7det) (by with_unfolding_all decide)).1

/-! ### C10 — fuzzy text similarity is symmetric and rejects empty inputs -/

theorem startsWithChars_length_le :
    ∀ a b : List Char, startsWithChars a b = true → a.length ≤ b.length := by
  intro a
  induction a with
  | nil => intro b _; simp
  | cons c cs ih =>
    intro b h
    cases b with
    | nil => simp [startsWithChars] at h
    | cons d ds =>
      simp only [startsWithChars, Bool.and_eq_true] at h
      have := ih ds h.2
      simp only [List.length_cons]
      omega

theorem startsWithChars_refl : ∀ a : List Char, startsWithChars a a = true := by
  intro a
  induction a with
  | nil => rfl
  | cons c cs ih => simp [startsWithChars, ih]

theorem startsWithChars_eq_of_length :
    ∀ a b : List Char, a.length = b.length →
      (startsWithChars a b = true ↔ a = b) := by
  intro a
  induction a with
  | nil =>
    intro b hl
    have : b = [] := List.length_eq_zero.mp hl.symm
    subst this
    simp [startsWithChars]
  | cons c cs ih =>
    intro b hl
    cases b with
    | nil => simp at hl
    | cons d ds =>
      simp only [List.length_cons, Nat.succ.injEq] at hl
      simp only [startsWithChars, Bool.and_eq_true, decide_eq_true_eq, List.cons.injEq]
      rw [ih ds hl]

theorem containsSub_length_le :
    ∀ a b : List Char, containsSub a b = true → a.length ≤ b.length := by
  intro a b
  induction b with
  | nil => intro h; exact startsWithChars_length_le a [] h
  | cons c cs ih =>
    intro h
    simp only [containsSub, Bool.or_eq_true] at h
    rcases h with h | h
    · exact startsWithChars_length_le _ _ h
    · exact le_trans (ih h) (by simp)

theorem containsSub_eq_of_length (a b : List Char) (hl : a.length = b.length) :
    containsSub a b = true ↔ a = b := by
  cases b with
  | nil =>
    have : a = [] := List.length_eq_zero.mp hl
    subst this
    simp [containsSub, startsWithChars]
  | cons c cs =>
    constructor
    · intro h
      simp only [containsSub, Bool.or_eq_true] at h
      rcases h with h | h
      · exact (startsWithChars_eq_of_length a _ hl).mp h
      · have := containsSub_length_le a cs h
        simp only [List.length_cons] at hl
        omega
    · rintro rfl
      simp only [containsSub, Bool.or_eq_true]
      exact Or.inl (startsWithChars_refl _)

theorem containedCheck_symm (t1 t2 : String) (h : t1 ≠ t2) :
    containedCheck t1 t2 = containedCheck t2 t1 := by
  unfold containedCheck
  rcases lt_trichotomy t1.length t2.length with hlt | heq | hgt
  · rw [if_pos hlt, if_neg (by omega : ¬ t2.length < t1.length)]
  · have hdata : t1.data.length = t2.data.length := heq
    have h1 : containsSub t2.data t1.data = false := by
      rw [Bool.eq_false_iff]
      intro hc
      exact h (String.ext ((containsSub_eq_of_length _ _ hdata.symm).mp hc)).symm
    have h2 : containsSub t1.data t2.data = false := by
      rw [Bool.eq_false_iff]
      intro hc
      exact h (String.ext ((containsSub_eq_of_length _ _ hdata).mp hc))
    rw [if_neg (by omega : ¬ t1.length < t2.length),
        if_neg (by omega : ¬ t2.length < t1.length)]
    simp only [h1, h2, Bool.and_false]
  · rw [if_neg (by omega : ¬ t1.length < t2.length), if_pos hgt]

theorem crossPhraseCheck_symm (n1 n2 : List Char) :
    crossPhraseCheck n1 n2 = crossPhraseCheck n2 n1 := by
  unfold crossPhraseCheck
  cases hm1 : movingParts.any (fun p => containsSub p.data n1) <;>
  cases hw1 : watermarkParts.any (fun p => containsSub p.data n1) <;>
  cases hm2 : movingParts.any (fun p => containsSub p.data n2) <;>
  cases hw2 : watermarkParts.any (fun p => containsSub p.data n2) <;>
  simp [hm1, hw1, hm2, hw2]

theorem sharedFragmentCheck_symm (n1 n2 : List Char) :
    sharedFragmentCheck n1 n2 = sharedFragmentCheck n2 n1 := by
  unfold sharedFragmentCheck
  rw [Bool.eq_iff_iff]
  simp only [List.any_eq_true, Bool.and_eq_true]
  constructor
  · rintro ⟨f, hf, h1, h2⟩; exact ⟨f, hf, h2, h1⟩
  · rintro ⟨f, hf, h1, h2⟩; exact ⟨f, hf, h2, h1⟩

theorem targetSubstringCheck_symm (t1 t2 : String) (n1 n2 : List Char) :
    targetSubstringCheck t1 t2 n1 n2 = targetSubstringCheck t2 t1 n2 n1 := by
  unfold targetSubstringCheck
  cases h1 : decide (2 ≤ t1.length) <;>
  cases h2 : decide (2 ≤ t2.length) <;>
  cases h3 : (containsSub n1 "movingwatermark".data ||
    containsSub n1 "moving watermark".data) <;>
  cases h4 : (containsSub n2 "movingwatermark".data ||
    containsSub n2 "moving watermark".data) <;>
  simp [h1, h2, h3, h4]

theorem commonCharsCheck_symm (t1 t2 : String) :
    commonCharsCheck t1 t2 = commonCharsCheck t2 t1 := by
  unfold commonCharsCheck
  rw [Finset.inter_comm t1.data.toFinset, min_comm t1.length]

theorem threeCharMatch_symm (a b : List Char) :
    threeCharMatch a b = threeCharMatch b a := by
  rw [Bool.eq_iff_iff]
  simp only [threeCharMatch, List.any_eq_true, List.mem_range, decide_eq_true_eq]
  constructor
  · rintro ⟨i, hi, j, hj, h⟩; exact ⟨j, hj, i, hi, h.symm⟩
  · rintro ⟨i, hi, j, hj, h⟩; exact ⟨j, hj, i, hi, h.symm⟩

theorem roughEditCheck_symm (t1 t2 : String) :
    roughEditCheck t1 t2 = roughEditCheck t2 t1 := by
  unfold roughEditCheck
  rw [commonCharsCheck_symm t1 t2, threeCharMatch_symm t1.data t2.data]
  cases h1 : decide (3 ≤ t1.length) <;>
  cases h2 : decide (3 ≤ t2.length) <;>
  cases h3 : decide (4 ≤ t1.length) <;>
  cases h4 : decide (4 ≤ t2.length) <;>
  simp [h1, h2, h3, h4]

/-- C10: `_texts_are_similar` is symmetric in its two arguments, and
returns `False` whenever either argument is the empty string. -/
theorem C10_texts_are_similar_properties :
    (∀ a b : String, textsAreSimilar a b = textsAreSimilar b a) ∧
    (∀ b : String, textsAreSimilar "" b = false) ∧
    (∀ a : String, textsAreSimilar a "" = false) := by
  refine ⟨?_, ?_, ?_⟩
  · intro a b
    unfold textsAreSimilar
    by_cases ha : a = ""
    · simp [ha]
    · by_cases hb : b = ""
      · simp [hb]
      · simp only [ha, hb, decide_False, Bool.or_self, Bool.false_or, if_false,
          decide_eq_true_eq]
        by_cases heq : pyStrip (pyLower a) = pyStrip (pyLower b)
        · simp [heq]
        · have hne' : pyStrip (pyLower b) ≠ pyStrip (pyLower a) := fun hh => heq hh.symm
          simp only [heq, hne', decide_False, Bool.false_or]
          rw [containedCheck_symm _ _ heq,
              crossPhraseCheck_symm (normChars (pyStrip (pyLower a))),
              sharedFragmentCheck_symm (normChars (pyStrip (pyLower a))),
              targetSubstringCheck_symm (pyStrip (pyLower a)),
              roughEditCheck_symm (pyStrip (pyLower a))]
  · intro b
    unfold textsAreSimilar
    simp
  · intro a
    unfold textsAreSimilar
    simp

/-! ### C5 — combined removal for at most 3 watermarks, single fallback beyond -/

theorem mapM_bestOfGroup_length :
    ∀ (gs : List (List Det)) (l : List Det), gs.mapM bestOfGroup = some l →
      l.length = gs.length := by
  intro gs
  induction gs with
  | nil =>
    intro l h
    rw [List.mapM_nil] at h
    cases h
    rfl
  | cons g t ih =>
    intro l h
    rw [List.mapM_cons bestOfGroup] at h
    cases hg : bestOfGroup g with
    | none => rw [hg] at h; cases h
    | some b =>
      rw [hg] at h
      cases ht : t.mapM bestOfGroup with
      | none => rw [ht] at h; cases h
      | some bs =>
        rw [ht] at h
        cases h
        simp [ih bs ht]

/-- C5: `_remove_multiple_watermarks` takes the most confident member of
each group; with at most 3 groups it starts one combined removal whose
region is the union of those members padded by 10 pixels on every side
(clamped at the frame origin) and hence covers each of them; with more than
3 groups it starts a single removal of the most confident member instead. -/
theorem C5_multi_watermark_dispatch (groups : List (List Det)) (hne : groups ≠ [])
    (bests : List Det) (hb : groups.mapM bestOfGroup = some bests) :
    (groups.length ≤ 3 → ∀ cw,
      combineWatermarks (List.insertionSort confDesc bests) = some cw →
      removeMultipleWatermarks groups = some (RemovalPlan.combined cw) ∧
      cw.x = max 0 (dMin (fun d => d.x) (List.insertionSort confDesc bests) - 10) ∧
      cw.y = max 0 (dMin (fun d => d.y) (List.insertionSort confDesc bests) - 10) ∧
      cw.x + cw.width =
        dMax (fun d => d.x + d.width) (List.insertionSort confDesc bests) + 10 ∧
      cw.y + cw.height =
        dMax (fun d => d.y + d.height) (List.insertionSort confDesc bests) + 10 ∧
      (∀ b ∈ bests, cw.x ≤ b.x ∧ b.x + b.width ≤ cw.x + cw.width ∧
        cw.y ≤ b.y ∧ b.y + b.height ≤ cw.y + cw.height)) ∧
    (3 < groups.length → ∀ w rest,
      List.insertionSort confDesc bests = w :: rest →
      removeMultipleWatermarks groups = some (RemovalPlan.single w) ∧
      w ∈ bests ∧ (∀ b ∈ bests, b.confidence ≤ w.confidence)) := by
  have hblen : bests.length = groups.length := mapM_bestOfGroup_length groups bests hb
  have hslen : (List.insertionSort confDesc bests).length = groups.length := by
    rw [List.length_insertionSort, hblen]
  constructor
  · intro hlen cw hcw
    have hdispatch : removeMultipleWatermarks groups = some (RemovalPlan.combined cw) := by
      simp only [removeMultipleWatermarks, hb]
      rw [if_pos (by omega : (List.insertionSort confDesc bests).length ≤ 3), hcw]
      rfl
    cases hs : List.insertionSort confDesc bests with
    | nil =>
      exfalso
      have : groups.length = 0 := by rw [← hslen, hs]; rfl
      exact hne (List.length_eq_zero.mp this)
    | cons w rest =>
      rw [hs] at hcw
      simp only [combineWatermarks, Option.some_inj] at hcw
      subst hcw
      have hminx : dMin (fun d => d.x) (w :: rest) ≤ w.x := dMin_le _ (by simp)
      have hminy : dMin (fun d => d.y) (w :: rest) ≤ w.y := dMin_le _ (by simp)
      have hmaxx : w.x + w.width ≤ dMax (fun d => d.x + d.width) (w :: rest) :=
        le_dMax (fun e => e.x + e.width) (by simp)
      have hmaxy : w.y + w.height ≤ dMax (fun d => d.y + d.height) (w :: rest) :=
        le_dMax (fun e => e.y + e.height) (by simp)
      refine ⟨hdispatch, rfl, rfl, ?_, ?_, ?_⟩
      · dsimp only; omega
      · dsimp only; omega
      · intro b hbmem
        have hbmem' : b ∈ w :: rest := by
          rw [← hs, (List.perm_insertionSort confDesc bests).mem_iff]
          exact hbmem
        have h1 : dMin (fun d => d.x) (w :: rest) ≤ b.x := dMin_le _ hbmem'
        have h2 : b.x + b.width ≤ dMax (fun d => d.x + d.width) (w :: rest) :=
          le_dMax (fun e => e.x + e.width) hbmem'
        have h3 : dMin (fun d => d.y) (w :: rest) ≤ b.y := dMin_le _ hbmem'
        have h4 : b.y + b.height ≤ dMax (fun d => d.y + d.height) (w :: rest) :=
          le_dMax (fun e => e.y + e.height) hbmem'
        dsimp only
        omega
  · intro hlen w rest hsort
    refine ⟨?_, ?_, ?_⟩
    · simp only [removeMultipleWatermarks, hb]
      rw [if_neg (by omega : ¬ (List.insertionSort confDesc bests).length ≤ 3), hsort]
    · rw [← (List.perm_insertionSort confDesc bests).mem_iff, hsort]
      exact List.mem_cons_self w rest
    · intro b hbmem
      have hsorted : List.Pairwise confDesc (List.insertionSort confDesc bests) :=
        List.sorted_insertionSort confDesc bests
      rw [hsort, List.pairwise_cons] at hsorted
      have hbmem' : b ∈ w :: rest := by
        rw [← hsort, (List.perm_insertionSort confDesc bests).mem_iff]
        exact hbmem
      rcases List.mem_cons.mp hbmem' with rfl | hbr
      · exact le_refl _
      · exact hsorted.1 b hbr

/-- The four per-group best watermarks of the C5 witness scenario. -/
def c5w (i : Nat) : Det :=
  { x := 10 * i, y := 5, width := 20, height := 10, confidence := (9 - i : ℤ) / 10,
    text := "wm" }

/-- Witness for C5: four simultaneous watermark groups trigger the
single-removal fallback with the most confident one. -/
theorem C5_multi_watermark_dispatch_witness :
    removeMultipleWatermarks [[c5w 0], [c5w 1], [c5w 2], [c5w 3]] =
      some (RemovalPlan.single (c5w 0)) :=
  ((C5_multi_watermark_dispatch [[c5w 0], [c5w 1], [c5w 2], [c5w 3]]
      (by simp) [c5w 0, c5w 1, c5w 2, c5w 3] (by with_unfolding_all decide)).2
    (by simp) (c5w 0) [c5w 1, c5w 2, c5w 3] (by with_unfolding_all decide)).1

/-! ### C9 — failed frame extraction degrades to skipping the sample -/

/-- C9: every failure path of `extract_frame` — an exception, a nonzero
ffmpeg return code, or an unreadable output file — yields `None` rather than
raising; and the timeline analysis loop treats a `None` frame as "skip this
sample": its accumulated detections are exactly the tagged detections of the
successfully extracted samples (each keeping its original sample index and
timestamp), so the run still produces a timeline result from the remaining
samples instead of aborting. -/
theorem C9_extract_frame_none_skips :
    (∀ r : ExtractResult,
      r = ExtractResult.exn ∨ r = ExtractResult.procFailed ∨ r = ExtractResult.ok none →
      extractFrame r = none) ∧
    (∀ (O : Oracles) (samples : List (ℚ × ExtractResult)),
      allDetections O samples =
        (samples.enum.filterMap fun p =>
          (extractFrame p.2.2).map fun f =>
            (detectLogosInCornersF O f).map
              (fun d => { d with frame_index := p.1, timestamp := p.2.1 })).flatten ∧
      detectLogosWithTimeline O samples =
        createWatermarkTimelines (allDetections O samples)) := by
  constructor
  · intro r h
    rcases h with rfl | rfl | rfl <;> rfl
  · intro O samples
    refine ⟨?_, rfl⟩
    have key : ∀ (l : List (Nat × ℚ × ExtractResult)) (acc : List Det),
        l.foldl
          (fun acc p =>
            match extractFrame p.2.2 with
            | none => acc
            | some f =>
              acc ++ (detectLogosInCornersF O f).map
                (fun d => { d with frame_index := p.1, timestamp := p.2.1 }))
          acc =
        acc ++ (l.filterMap fun p =>
          (extractFrame p.2.2).map fun f =>
            (detectLogosInCornersF O f).map
              (fun d => { d with frame_index := p.1, timestamp := p.2.1 })).flatten := by
      intro l
      induction l with
      | nil => intro acc; simp
      | cons p t ih =>
        intro acc
        rw [List.foldl_cons, List.filterMap_cons]
        cases hf : extractFrame p.2.2 with
        | none =>
          simp only [hf, Option.map_none']
          exact ih acc
        | some f =>
          simp only [hf, Option.map_some']
          rw [ih, List.flatten_cons, List.append_assoc]
    have := key samples.enum []
    simpa [allDetections] using this

/-- Witness for C9 at a concrete failure outcome. -/
theorem C9_extract_frame_none_skips_witness :
    extractFrame ExtractResult.exn = none :=
  C9_extract_frame_none_skips.1 ExtractResult.exn (Or.inl rfl)

/-! ### C1 — every Region Proposer detection lies inside the frame -/

theorem fullRegion_empty_of_large (O : Oracles) (offX offY w h : Nat)
    (hl : 400 < h ∨ 400 < w) :
    detectTextWithOcrFullRegion O offX offY w h = [] := by
  unfold detectTextWithOcrFullRegion
  rw [if_pos]
  rcases hl with hl | hl
  · exact Or.inl (by omega)
  · exact Or.inr (by omega)

theorem ocrFuel_bounds (O : Oracles) :
    ∀ (fuel offX offY w h : Nat) (d : Det),
      d ∈ detectTextWithOcrFuel O fuel offX offY w h →
      offX ≤ d.x ∧ offY ≤ d.y ∧ d.x + d.width ≤ offX + w ∧ d.y + d.height ≤ offY + h := by
  intro fuel
  induction fuel with
  | zero => intro offX offY w h d hd; simp [detectTextWithOcrFuel] at hd
  | succ n ih =>
    intro offX offY w h d hd
    simp only [detectTextWithOcrFuel] at hd
    by_cases hsmall : h < 20 ∨ w < 20
    · rw [if_pos hsmall] at hd
      simp at hd
    · rw [if_neg hsmall] at hd
      by_cases hlarge : 400 < h ∨ 400 < w
      · rw [if_pos hlarge] at hd
        rw [fullRegion_empty_of_large O offX offY w h hlarge] at hd
        rw [if_neg (by simp)] at hd
        rw [List.nil_append, List.mem_flatMap] at hd
        obtain ⟨s, hs, hd⟩ := hd
        push_neg at hsmall
        simp only [List.mem_cons, List.not_mem_nil, or_false] at hs
        rcases hs with rfl | rfl | rfl | rfl <;>
        · dsimp only at hd
          split_ifs at hd with hnz
          · obtain ⟨a1, a2, a3, a4⟩ := ih _ _ _ _ d hd
            refine ⟨by omega, by omega, by omega, by omega⟩
          · simp at hd
      · rw [if_neg hlarge] at hd
        by_cases htext : 1 < (O.ocrText offX offY w h).length
        · rw [if_pos htext] at hd
          simp only [List.mem_singleton] at hd
          subst hd
          refine ⟨le_refl _, le_refl _, ?_, ?_⟩ <;> · dsimp only; omega
        · rw [if_neg htext] at hd
          simp at hd

theorem mem_ite_elim {α : Type} (d : α) {c : Prop} [Decidable c] {A B : List α}
    (h : d ∈ (if c then A else B)) : d ∈ A ∨ d ∈ B := by
  split at h
  · exact Or.inl h
  · exact Or.inr h

theorem selective_bounds (O : Oracles) (offX offY w h : Nat)
    (hcc : ∀ s ∈ O.ccStats offX offY w h, s.x + s.width ≤ w ∧ s.y + s.height ≤ h) :
    ∀ d ∈ detectTextRegionsSelective O offX offY w h,
      offX ≤ d.x ∧ offY ≤ d.y ∧ d.x + d.width ≤ offX + w ∧ d.y + d.height ≤ offY + h := by
  intro d hd
  unfold detectTextRegionsSelective at hd
  rw [List.mem_flatMap] at hd
  obtain ⟨s, hs, hd⟩ := hd
  have hb := hcc s hs
  rcases mem_ite_elim d hd with hd | hd
  · rcases mem_ite_elim d hd with hd | hd
    · rcases mem_ite_elim d hd with hd | hd <;>
      · simp only [List.mem_singleton] at hd
        subst hd
        dsimp only
        refine ⟨by omega, by omega, by omega, by omega⟩
    · simp at hd
  · simp at hd

theorem region_bounds (O : Oracles) (offX offY w h : Nat)
    (hcc : ∀ s ∈ O.ccStats offX offY w h, s.x + s.width ≤ w ∧ s.y + s.height ≤ h) :
    ∀ d ∈ detectLogosInRegion O offX offY w h,
      offX ≤ d.x ∧ offY ≤ d.y ∧ d.x + d.width ≤ offX + w ∧ d.y + d.height ≤ offY + h := by
  intro d hd
  simp only [detectLogosInRegion] at hd
  rcases mem_ite_elim d hd with hd | hd
  · exact ocrFuel_bounds O (w + h) offX offY w h d hd
  · rcases List.mem_append.mp hd with hd | hd
    · exact ocrFuel_bounds O (w + h) offX offY w h d hd
    · exact selective_bounds O offX offY w h hcc d hd

theorem clip_bounds (w h : Nat) (r : Nat × Nat × Nat × Nat) :
    (clipRect w h r).1 + (clipRect w h r).2.2.1 ≤ w ∧
    (clipRect w h r).2.1 + (clipRect w h r).2.2.2 ≤ h := by
  unfold clipRect
  dsimp only
  simp only [Nat.zero_max]
  constructor
  · have h1 : min r.2.2.1 (w - min r.1 (w - 1)) ≤ w - min r.1 (w - 1) :=
      Nat.min_le_right _ _
    have h2 : min r.1 (w - 1) ≤ w - 1 := Nat.min_le_right _ _
    omega
  · have h1 : min r.2.2.2 (h - min r.2.1 (h - 1)) ≤ h - min r.2.1 (h - 1) :=
      Nat.min_le_right _ _
    have h2 : min r.2.1 (h - 1) ≤ h - 1 := Nat.min_le_right _ _
    omega

/-- C1: on a frame of height `h` and width `w`, every detection returned by
`detect_logos_in_corners` — through any of its OCR sub-passes (the
full-region pass included, which through the proposer is only reached on
regions over 400 pixels and then returns nothing because of its own
200×300 guard) and the selective shape pass — satisfies `0 ≤ x`, `0 ≤ y`,
`x + width ≤ w` and `y + height ≤ h`.  The only assumption about the
OpenCV oracle is its contract: connected components lie inside the analysed
region. -/
theorem C1_region_proposer_in_bounds (O : Oracles)
    (hcc : ∀ offX offY w h, ∀ s ∈ O.ccStats offX offY w h,
      s.x + s.width ≤ w ∧ s.y + s.height ≤ h)
    (w h cw ch eh ey ew ex : Nat) :
    ∀ d ∈ detectLogosInCorners O w h cw ch eh ey ew ex,
      0 ≤ d.x ∧ 0 ≤ d.y ∧ d.x + d.width ≤ w ∧ d.y + d.height ≤ h := by
  intro d hd
  unfold detectLogosInCorners at hd
  rw [List.mem_flatMap] at hd
  obtain ⟨nr, _, hd⟩ := hd
  rcases mem_ite_elim d hd with hd | hd
  · rw [List.mem_map] at hd
    obtain ⟨b, hb, rfl⟩ := hd
    have hclip := clip_bounds w h nr.2
    have hreg := region_bounds O _ _ _ _ (fun s hs => hcc _ _ _ _ s hs) b hb
    refine ⟨Nat.zero_le _, Nat.zero_le _, ?_, ?_⟩ <;> · dsimp only; omega
  · simp at hd

/-- Oracles for the C1 witness: OCR always reads `"ab"`, everything else is
inert. -/
def c1oracles : Oracles :=
  { ocrText := fun _ _ _ _ => "ab",
    fullRegionText := fun _ _ _ _ => "",
    roiText := fun _ _ _ _ => "",
    isWatermarkText := fun _ => false,
    ccStats := fun _ _ _ _ => [] }

/-- The top-left detection the witness oracles produce on a 100×100 frame. -/
def c1det : Det :=
  { x := 0, y := 0, width := 30, height := 30, confidence := 1 / 2,
    typ := "ocr_tesseract", text := "ab", is_watermark := false,
    corner := "top_left" }

/-- Witness for C1: the concrete top-left detection on a 100×100 frame is
in bounds. -/
theorem C1_region_proposer_in_bounds_witness :
    0 ≤ c1det.x ∧ 0 ≤ c1det.y ∧ c1det.x + c1det.width ≤ 100 ∧
    c1det.y + c1det.height ≤ 100 :=
  C1_region_proposer_in_bounds c1oracles
    (fun _ _ _ _ s hs => absurd hs (List.not_mem_nil s))
    100 100 30 30 20 80 20 80 c1det (by with_unfolding_all decide)

/-! ### C6 — the one-character confidence exception is dead code -/

/-- A one-character, high-confidence detection: the claim (and the spec)
say the noise filter keeps it, since its confidence 0.9 ≥ 0.7. -/
def c6det : Det :=
  { x := 0, y := 0, width := 10, height := 10, confidence := 9 / 10, text := "W" }

/-- C6: the noise filter drops every text shorter than 2 characters
unconditionally — the `len(text) == 1 and confidence < 0.7` exception sits
after the `len(text) < 2` check and can never fire — so a one-character text
with confidence 0.9 is dropped even though it passes every condition the
claim says suffices to be kept. -/
theorem C6_one_char_high_confidence_dropped :
    noiseKeep c6det = false ∧
    noiseFilter [c6det] = [] ∧
    (7 / 10 : ℚ) ≤ c6det.confidence ∧
    (1 / 2 : ℚ) ≤ c6det.confidence ∧
    (pyStrip c6det.text).length = 1 ∧
    tsPatterns.all (fun p => ¬ subStr p (pyLower (pyStrip c6det.text))) := by
  with_unfolding_all decide

/-! ### C8 — coordinate validation is not in-bounds for boundary inputs -/

/-- C8 counterexample: on a 100×100 frame, the input rectangle
`(x, y, w, h) = (99, 0, 50, 50)` comes out of `_validate_coordinates` as
`(99, 0, 2, 50)`: the clamped width `min(w, frame_width - x - 1)` collapses
to zero and the 2-pixel minimum then pushes the region past the right frame
edge, so `x + width < frame_width` fails. -/
theorem C8_validate_coordinates_cex :
    validateCoordinates 99 0 50 50 100 100 = ⟨99, 0, 2, 50⟩ ∧
    ¬ ((validateCoordinates 99 0 50 50 100 100).x +
        (validateCoordinates 99 0 50 50 100 100).w < 100) ∧
    (2 : ℤ) ≤ 100 := by
  decide

/-- C8 (amended): for frames of width and height at least 3 and every input
rectangle with `x ≤ frame_width - 3` and `y ≤ frame_height - 3`, the
validated region satisfies `x + width < frame_width`,
`y + height < frame_height`, `width ≥ 2` and `height ≥ 2`.  (Once the
clamped `x` reaches `frame_width - 2`, the 2-pixel minimum necessarily
pushes the region out of bounds — and at `frame_width = 2` no region can
satisfy the claim at all — so the original unrestricted claim fails.) -/
theorem C8_validate_coordinates_amended (x y w h vw vh : Int)
    (hx : x ≤ vw - 3) (hy : y ≤ vh - 3) (hvw : 3 ≤ vw) (hvh : 3 ≤ vh) :
    (validateCoordinates x y w h vw vh).x + (validateCoordinates x y w h vw vh).w < vw ∧
    (validateCoordinates x y w h vw vh).y + (validateCoordinates x y w h vw vh).h < vh ∧
    2 ≤ (validateCoordinates x y w h vw vh).w ∧
    2 ≤ (validateCoordinates x y w h vw vh).h ∧
    0 ≤ (validateCoordinates x y w h vw vh).x ∧
    0 ≤ (validateCoordinates x y w h vw vh).y := by
  unfold validateCoordinates
  dsimp only
  omega

/-- Witness for the amended C8 statement at a concrete in-range input. -/
theorem C8_validate_coordinates_amended_witness :
    (validateCoordinates 10 10 50 50 100 100).x + (validateCoordinates 10 10 50 50 100 100).w < 100 ∧
    (validateCoordinates 10 10 50 50 100 100).y + (validateCoordinates 10 10 50 50 100 100).h < 100 ∧
    2 ≤ (validateCoordinates 10 10 50 50 100 100).w ∧
    2 ≤ (validateCoordinates 10 10 50 50 100 100).h ∧
    0 ≤ (validateCoordinates 10 10 50 50 100 100).x ∧
    0 ≤ (validateCoordinates 10 10 50 50 100 100).y :=
  C8_validate_coordinates_amended 10 10 50 50 100 100 (by decide) (by decide)
    (by decide) (by decide)

end MMO
